import Mathlib

/-!
Verification of the Wordle TUI game (`src/utils/wordle.rs`, `src/utils/word.rs`)
against its natural-language specification.

Rust strings are modelled as `List Char`; `str::len` (a byte count) is modelled
by `rustByteLen` which sums per-char UTF-8 sizes.  The `HashMap<char, _>` maps
are modelled as total functions (`HashMap::get` returning `None` coincides with
the functions' default values, see the comments at each use site).  The
`HashSet<String>` word set is modelled as a `List (List Char)` used only
through membership.  Rust panics are modelled as `Option.none` results.
-/

namespace RustWordle

/-- UTF-8 byte size of one scalar value (model of Rust `char::len_utf8`). -/
def charSize (c : Char) : Nat :=
  if c.toNat < 128 then 1 else if c.toNat < 2048 then 2
  else if c.toNat < 65536 then 3 else 4

/-- Byte length of a string (model of Rust `str::len`). -/
def rustByteLen (s : List Char) : Nat := (s.map charSize).sum

/-- Model of Rust `str::is_ascii`: every char is an ASCII scalar. -/
def isAsciiL (s : List Char) : Bool := s.all fun c => c.toNat < 128

/-- Model of Rust `char::to_ascii_uppercase`: shift a lowercase ASCII letter
by 32, leave every other char unchanged. -/
def toUpperAscii (c : Char) : Char :=
  if 97 ≤ c.toNat ∧ c.toNat ≤ 122 then Char.ofNat (c.toNat - 32) else c

/-- Model of Rust `str::to_ascii_uppercase`. -/
def asciiUpper (s : List Char) : List Char := s.map toUpperAscii

/-- Model of Rust `char::is_whitespace` (the Unicode White_Space set). -/
def rustIsWhitespace (c : Char) : Bool :=
  decide (c.toNat = 9 ∨ c.toNat = 10 ∨ c.toNat = 11 ∨ c.toNat = 12 ∨
    c.toNat = 13 ∨ c.toNat = 32 ∨ c.toNat = 133 ∨ c.toNat = 160 ∨
    c.toNat = 5760 ∨ (8192 ≤ c.toNat ∧ c.toNat ≤ 8202) ∨ c.toNat = 8232 ∨
    c.toNat = 8233 ∨ c.toNat = 8239 ∨ c.toNat = 8287 ∨ c.toNat = 12288)

/-- Model of Rust `str::trim`: strip whitespace from both ends. -/
def rustTrim (s : List Char) : List Char :=
  ((s.dropWhile rustIsWhitespace).reverse.dropWhile rustIsWhitespace).reverse

/-- `TileState` from `src/utils/word.rs`. -/
inductive TileState where
  | Correct
  | Present
  | Absent
  | Unused
deriving DecidableEq, Repr

/-- `Tile` from `src/utils/word.rs`: one letter with its evaluated state. -/
structure Tile where
  letter : Char
  state : TileState
deriving DecidableEq, Repr

/-- `Word` from `src/utils/word.rs`: a vector of tiles. -/
structure Word where
  letters : List Tile
deriving DecidableEq, Repr

/-- `Word::from` (`src/utils/word.rs` lines 54-67): panics (modelled as `none`)
when the byte length of the input differs from 5, otherwise builds the tiles
with every state initialized to `Absent`. -/
def Word.fromChars (word : List Char) : Option Word :=
  if rustByteLen word ≠ 5 then none
  else some ⟨word.map fun letter => ⟨letter, TileState.Absent⟩⟩

/-- `is_solved`-style check used inline by `update_status`: the loop there
starts from `true` and clears the flag on any non-`Correct` tile, which is
exactly `List.all`. -/
def allCorrect (w : Word) : Bool :=
  w.letters.all fun t => decide (t.state = TileState.Correct)

/-- Const `ROUND` from `src/utils/wordle.rs`. -/
def ROUND : Nat := 6

/-- Const `WORD_LEN` from `src/utils/wordle.rs`. -/
def WORD_LEN : Nat := 5

/-- The `Wordle` struct from `src/utils/wordle.rs`.  `round` is a `u8` in the
source; submission is gated on `round <= 6` so it never exceeds 7 and `Nat`
is a faithful model.  `used_chars` is a `HashMap<char, TileState>` whose
missing entries are only ever read through `entry(..).or_insert(Unused)`, so a
total function with `Unused` default is faithful. -/
structure Wordle where
  round : Nat
  valid_words : List (List Char)
  used_chars : Char → TileState
  answer : List Char
  history : List Word
  current : List Char
  solved : Bool
  err_msg : String

/-- `Wordle::new`, with the file contents and the RNG draw injected: the
constructor initializes round 1, all 26 hints `Unused`, empty history, empty
input buffer, not solved, empty error message. -/
def mkWordle (valid_words : List (List Char)) (answer : List Char) : Wordle where
  round := 1
  valid_words := valid_words
  used_chars := fun _ => TileState.Unused
  answer := answer
  history := []
  current := []
  solved := false
  err_msg := ""

/-- `Wordle::load_words` (lines 62-73) with the file's lines injected: each
line is ASCII-uppercased and inserted into the set (modelled as a list used up
to membership; `HashSet` deduplication does not change membership).  The only
failures in the source are I/O errors; there is no length filter and no
emptiness check. -/
def load_words (lines : List (List Char)) : List (List Char) :=
  lines.map asciiUpper

/-- `Wordle::draw_word` (lines 75-82) with the RNG injected as an index:
panics (modelled as `none`) on empty input, otherwise returns the chosen
element of the set. -/
def draw_word (words : List (List Char)) (k : Nat) : Option (List Char) :=
  if words.isEmpty then none else words.get? (k % words.length)

/-- `Wordle::game_restart` (lines 84-94), with the freshly drawn answer
injected: round back to 1, every hint entry reset to `Unused`, new answer,
empty history, empty input, not solved, empty error message. -/
def game_restart (w : Wordle) (drawn : List Char) : Wordle :=
  { w with
    round := 1
    used_chars := fun _ => TileState.Unused
    answer := drawn
    history := []
    current := []
    solved := false
    err_msg := "" }

def errNotAscii : String := "not ascii"

def errWrongLength : String := "incorrect word length"

def errNotInWordList : String := "invalid word"

/-- `Wordle::parse_input` (lines 122-141).  The trailing `Word::from` call can
panic, modelled by the outer `Option` (`none` = panic). -/
def parse_input (w : Wordle) (input : List Char) : Option (Except String Word) :=
  let trimmed := rustTrim input
  if isAsciiL trimmed = false then some (Except.error errNotAscii)
  else if rustByteLen trimmed ≠ WORD_LEN then some (Except.error errWrongLength)
  else if asciiUpper trimmed ∉ w.valid_words then some (Except.error errNotInWordList)
  else (Word.fromChars (asciiUpper trimmed)).map Except.ok

/-- Pass 1 of `Wordle::compare` (lines 149-158): walk the guess tiles paired
with the answer chars; on a positional match mark `Correct` and decrement the
letter's count.  The source decrements through `get_mut` which always finds an
entry here (the letter equals the answer char at this position, so it occurs
in the answer), and the `u8` value is still positive at that point, so the
`Nat` truncated subtraction coincides with the source's `*val -= 1`. -/
def pass1 (m : Char → Nat) : List (Tile × Char) → (Char → Nat) × List Tile
  | [] => (m, [])
  | (t, a) :: rest =>
    if t.letter = a then
      let r := pass1 (fun c => if c = t.letter then m c - 1 else m c) rest
      (r.1, ⟨t.letter, TileState.Correct⟩ :: r.2)
    else
      let r := pass1 m rest
      (r.1, t :: r.2)

/-- Pass 2 of `Wordle::compare` (lines 160-173): skip `Correct` tiles; mark
`Present` and decrement while the letter still has budget, else mark `Absent`.
The source's `get_mut` returning `None` only happens for letters absent from
the answer, whose count in the total-function model is 0, and both cases take
the `Absent` arm. -/
def pass2 (m : Char → Nat) : List Tile → List Tile
  | [] => []
  | t :: rest =>
    if t.state = TileState.Correct then t :: pass2 m rest
    else if 0 < m t.letter then
      ⟨t.letter, TileState.Present⟩ :: pass2 (fun c => if c = t.letter then m c - 1 else m c) rest
    else
      ⟨t.letter, TileState.Absent⟩ :: pass2 m rest

/-- `Wordle::compare` (lines 143-174): build the letter→count map of the
answer, then run the two passes.  The source indexes `answer_vec[i]` for every
guess position, which is total for the length-5 words this is called with; the
zip model agrees on those. -/
def compare (answer : List Char) (user_input : List Tile) : List Tile :=
  let answer_map : Char → Nat := fun c => answer.count c
  let r := pass1 answer_map (user_input.zip answer)
  pass2 r.1 r.2

/-- The per-tile keyboard-hint update inside `Wordle::update_status` (lines
186-194): overwrite the stored hint with the tile state only when the stored
hint is `Unused`, or when it is `Present` and the tile is `Correct`. -/
def mergeChar (m : Char → TileState) (t : Tile) : Char → TileState :=
  if m t.letter = TileState.Unused ∨
     (m t.letter = TileState.Present ∧ t.state = TileState.Correct) then
    fun c => if c = t.letter then t.state else m c
  else m

/-- `Wordle::update_status` (lines 176-199): append the scored word to the
history, fold the hint update over its tiles, and set `solved` to whether
every tile is `Correct`. -/
def update_status (w : Wordle) (result : Word) : Wordle :=
  { w with
    history := w.history ++ [result]
    used_chars := result.letters.foldl mergeChar w.used_chars
    solved := allCorrect result }

/-- The game lifecycle state, as the spec names it.  In the source it is
derived: `update_screen` (line 322) declares the game over when
`solved || round > ROUND`, showing the win popup when `solved` and the loss
popup otherwise, and `handle_input` gates play on `round <= 6 && !solved`. -/
inductive GameState where
  | Playing
  | Won
  | Lost
deriving DecidableEq, Repr

/-- Lifecycle state read off a session (see `GameState`). -/
def gameState (w : Wordle) : GameState :=
  if w.solved = true then GameState.Won
  else if ROUND < w.round then GameState.Lost
  else GameState.Playing

/-- `InputState` from `src/utils/wordle.rs` (lines 22-27). -/
inductive InputState where
  | Guessing
  | Submit
  | Cancel
  | GameEnd
deriving DecidableEq, Repr

/-- The key codes `Wordle::handle_input` distinguishes. -/
inductive KeyCode where
  | esc
  | tab
  | char (c : Char)
  | backspace
  | enter
  | other
deriving DecidableEq, Repr

/-- `Wordle::handle_input` (lines 96-120), with the polled key and the word a
`Tab`-restart would draw injected.  `Char`, `Backspace` and `Enter` are
guarded by `round <= 6 && !solved`; when the guard fails they fall through to
the wildcard arm returning `GameEnd` with the session untouched. -/
def handle_input (key : KeyCode) (drawn : List Char) (w : Wordle) : InputState × Wordle :=
  match key with
  | KeyCode.esc => (InputState.Cancel, w)
  | KeyCode.tab => (InputState.Guessing, game_restart w drawn)
  | KeyCode.char c =>
    if w.round ≤ 6 ∧ w.solved = false then
      (InputState.Guessing,
        if rustByteLen w.current < 5 then { w with current := w.current ++ [toUpperAscii c] } else w)
    else (InputState.GameEnd, w)
  | KeyCode.backspace =>
    if w.round ≤ 6 ∧ w.solved = false then
      (InputState.Guessing,
        if w.current.isEmpty then w else { w with current := w.current.dropLast })
    else (InputState.GameEnd, w)
  | KeyCode.enter =>
    if w.round ≤ 6 ∧ w.solved = false then (InputState.Submit, w)
    else (InputState.GameEnd, w)
  | KeyCode.other => (InputState.GameEnd, w)

/-- The `InputState::Submit` arm of `Wordle::run` (lines 381-403): parse the
current buffer; on error record the message and continue; on success clear the
error message, score the guess, update the status, advance the round and clear
the buffer.  The `Word::from` panic inside `parse_input` propagates as
`none`. -/
def submitStep (w : Wordle) : Option Wordle :=
  match parse_input w w.current with
  | none => none
  | some (Except.error e) => some { w with err_msg := e }
  | some (Except.ok guess) =>
    let scored : Word := ⟨compare w.answer guess.letters⟩
    let w1 := update_status { w with err_msg := "" } scored
    some { w1 with round := w1.round + 1, current := [] }

/-- One full submission of a typed word: the buffer filled by `Char` keys,
then the `Submit` arm. -/
def submitWord (w : Wordle) (input : List Char) : Option Wordle :=
  submitStep { w with current := input }

/-! ### Spec-side definitions (for refinement comparisons) -/

/-- Modelled from the spec (§3, §9): the fixed severity rank table
`Correct=3 > Present=2 > Absent=1 > Unused=0`. -/
def severity : TileState → Nat
  | TileState.Correct => 3
  | TileState.Present => 2
  | TileState.Absent => 1
  | TileState.Unused => 0

/-- Modelled from the spec (§4.3): `max_severity` of two states. -/
def maxSeverity (a b : TileState) : TileState :=
  if severity a ≤ severity b then b else a

/-- Modelled from the spec (§4.2, pass 2): walk the guess letters with their
pass-1 match flags; a matched position is `Correct`, an unmatched one is
`Present` while the letter's remaining multiset count is positive (consuming
one occurrence) and `Absent` otherwise. -/
def specPass2 : List (Char × Bool) → Multiset Char → List TileState
  | [], _ => []
  | (c, matched) :: rest, rem =>
    if matched then TileState.Correct :: specPass2 rest rem
    else if 0 < rem.count c then TileState.Present :: specPass2 rest (rem.erase c)
    else TileState.Absent :: specPass2 rest rem

/-- The letters claimed by pass 1: one per position where guess and answer
agree. -/
def matchedLetters (ps : List (Char × Char)) : List Char :=
  ps.filterMap fun p => if p.1 = p.2 then some p.1 else none

/-- Modelled from the spec (§4.2): the answer's multiset after pass 1 has
claimed every positional match. -/
def specRemaining (guess answer : List Char) : Multiset Char :=
  (answer : Multiset Char) - (matchedLetters (guess.zip answer) : Multiset Char)

/-- Modelled from the spec (§4.2): the full two-pass multiset evaluator, with
pass 1 completing before pass 2 consumes any budget. -/
def specEvaluate (guess answer : List Char) : List TileState :=
  specPass2 ((guess.zip answer).map fun p => (p.1, decide (p.1 = p.2)))
    (specRemaining guess answer)

/-- Scoring a raw guess the way `run` does: `Word::from` tiles (all `Absent`)
fed to `compare`. -/
def scoreOf (answer guess : List Char) : List Tile :=
  compare answer (guess.map fun c => ⟨c, TileState.Absent⟩)

/-! ### Concrete words used by witnesses and counterexamples -/

def crateW : List Char := "CRATE".toList

def houndW : List Char := "HOUND".toList

def traitW : List Char := "TRAIT".toList

def txttxW : List Char := "TXTTX".toList

def abLower : List Char := "ab".toList

def abUpper : List Char := "AB".toList

def abcChars : List Char := "abc".toList

def badChars : List Char := "abé".toList

def houseChars : List Char := "HOUSE".toList

/-! ### Keyboard-hint merge lemmas -/

theorem mergeChar_of_ne (m : Char → TileState) (t : Tile) (c : Char)
    (h : c ≠ t.letter) : mergeChar m t c = m c := by
  unfold mergeChar
  split
  · simp [h]
  · rfl

theorem mergeChar_keeps_correct (m : Char → TileState) (t : Tile) (c : Char)
    (h : m c = TileState.Correct) : mergeChar m t c = TileState.Correct := by
  by_cases hc : c = t.letter
  · subst hc
    unfold mergeChar
    simp [h]
  · rw [mergeChar_of_ne m t c hc, h]

theorem foldl_mergeChar_keeps_correct :
    ∀ (ts : List Tile) (m : Char → TileState) (c : Char),
      m c = TileState.Correct →
      (ts.foldl mergeChar m) c = TileState.Correct := by
  intro ts
  induction ts with
  | nil => intro m c h; exact h
  | cons t rest ih =>
    intro m c h
    exact ih (mergeChar m t) c (mergeChar_keeps_correct m t c h)

theorem mergeChar_severity_le (m : Char → TileState) (t : Tile) (c : Char) :
    severity (m c) ≤ severity (mergeChar m t c) := by
  by_cases hc : c = t.letter
  · subst hc
    unfold mergeChar
    split
    · rename_i h
      rcases h with h | ⟨h1, h2⟩
      · rw [h]; simp [severity]
      · rw [h1, h2]; simp [severity]
    · simp
  · rw [mergeChar_of_ne m t c hc]

theorem foldl_mergeChar_severity_le :
    ∀ (ts : List Tile) (m : Char → TileState) (c : Char),
      severity (m c) ≤ severity ((ts.foldl mergeChar m) c) := by
  intro ts
  induction ts with
  | nil => intro m c; exact le_refl _
  | cons t rest ih =>
    intro m c
    exact le_trans (mergeChar_severity_le m t c) (ih (mergeChar m t) c)

/-! ### Claims C2 and C8: keyboard-hint aggregation -/

/-- A session whose keyboard hint for `A` is `Absent`. -/
def wHintA : Wordle :=
  { mkWordle [] [] with
    used_chars := fun c => if c = 'A' then TileState.Absent else TileState.Unused }

/-- A plausible scored guess containing an `A` scored `Present`. -/
def scoredA : Word :=
  ⟨[⟨'A', TileState.Present⟩, ⟨'B', TileState.Absent⟩, ⟨'C', TileState.Absent⟩,
    ⟨'D', TileState.Absent⟩, ⟨'E', TileState.Absent⟩]⟩

/-- Claim C2, counterexample: with the hint for `A` currently `Absent` and a
scored guess carrying an `A` tile in state `Present`, `update_status` leaves
the hint `Absent`, whereas the claimed max-severity merge would upgrade it to
`Present`. -/
theorem update_status_not_max_severity :
    wHintA.used_chars 'A' = TileState.Absent ∧
    (update_status wHintA scoredA).used_chars 'A' = TileState.Absent ∧
    maxSeverity (wHintA.used_chars 'A') TileState.Present = TileState.Present ∧
    (update_status wHintA scoredA).used_chars 'A' ≠
      maxSeverity (wHintA.used_chars 'A') TileState.Present := by
  refine ⟨rfl, by decide, by decide, by decide⟩

/-- Claim C2 (amended): the keyboard update inside `update_status` overwrites
a guessed letter's hint with the tile state only when the stored hint is
`Unused`, or upgrades `Present` to `Correct` when the tile is `Correct`;
every other combination (in particular a stored `Absent` hint meeting a
`Present` or `Correct` tile) leaves the hint unchanged, other letters are
untouched, and consequently a hint's severity never decreases. -/
theorem update_status_merge_rule (m : Char → TileState) (t : Tile)
    (w : Wordle) (wd : Word) (c : Char) :
    (mergeChar m t) t.letter =
      (if m t.letter = TileState.Unused then t.state
       else if m t.letter = TileState.Present ∧ t.state = TileState.Correct then
         TileState.Correct
       else m t.letter) ∧
    (c ≠ t.letter → (mergeChar m t) c = m c) ∧
    severity (w.used_chars c) ≤ severity ((update_status w wd).used_chars c) := by
  refine ⟨?_, mergeChar_of_ne m t c, foldl_mergeChar_severity_le wd.letters w.used_chars c⟩
  unfold mergeChar
  by_cases h1 : m t.letter = TileState.Unused
  · simp [h1]
  · by_cases h2 : m t.letter = TileState.Present ∧ t.state = TileState.Correct
    · rw [if_pos (Or.inr h2), if_neg h1, if_pos h2]
      simp [h2.2]
    · rw [if_neg ?_, if_neg h1, if_neg h2]
      intro h
      rcases h with h | h
      · exact h1 h
      · exact h2 h

/-- Witness for claim C2's amended rule at concrete inputs. -/
theorem update_status_merge_rule_witness :
    mergeChar (fun _ => TileState.Unused) ⟨'A', TileState.Present⟩ 'A' = TileState.Present ∧
    mergeChar (fun _ => TileState.Unused) ⟨'A', TileState.Present⟩ 'B' = TileState.Unused ∧
    severity (wHintA.used_chars 'C') ≤
      severity ((update_status wHintA scoredA).used_chars 'C') := by
  refine ⟨?_, ?_, ?_⟩
  · exact ((update_status_merge_rule (fun _ => TileState.Unused)
      ⟨'A', TileState.Present⟩ wHintA scoredA 'B').1).trans (by decide)
  · exact ((update_status_merge_rule (fun _ => TileState.Unused)
      ⟨'A', TileState.Present⟩ wHintA scoredA 'B').2.1 (by decide)).trans rfl
  · exact (update_status_merge_rule (fun _ => TileState.Unused)
      ⟨'A', TileState.Present⟩ wHintA scoredA 'C').2.2

/-- Claim C8: once a letter's keyboard hint is `Correct`, merging any further
scored guess leaves it `Correct`. -/
theorem correct_hint_stable (w : Wordle) (wd : Word) (c : Char)
    (h : w.used_chars c = TileState.Correct) :
    (update_status w wd).used_chars c = TileState.Correct :=
  foldl_mergeChar_keeps_correct wd.letters w.used_chars c h

/-- A session whose keyboard hint for `T` is `Correct`. -/
def wHintT : Wordle :=
  { mkWordle [] [] with
    used_chars := fun c => if c = 'T' then TileState.Correct else TileState.Unused }

/-- A scored guess carrying both an `Absent` and a `Present` tile for `T`. -/
def scoredT : Word :=
  ⟨[⟨'T', TileState.Absent⟩, ⟨'X', TileState.Absent⟩, ⟨'T', TileState.Present⟩,
    ⟨'Y', TileState.Absent⟩, ⟨'Z', TileState.Absent⟩]⟩

/-- Witness for claim C8 at a concrete session and scored guess. -/
theorem correct_hint_stable_witness :
    wHintT.used_chars 'T' = TileState.Correct ∧
    (update_status wHintT scoredT).used_chars 'T' = TileState.Correct :=
  ⟨by decide, correct_hint_stable wHintT scoredT 'T' (by decide)⟩

/-! ### Claim C4: submissions in a terminal state -/

/-- Claim C4 (amended): while the lifecycle state is terminal, a guess
submission (the `Enter` key) is silently ignored: `handle_input` answers
`GameEnd` rather than `Submit` and the session — round, history, hints,
lifecycle state, answer, buffers and error message — is returned unchanged. -/
theorem terminal_submit_ignored (w : Wordle) (drawn : List Char)
    (h : gameState w = GameState.Won ∨ gameState w = GameState.Lost) :
    handle_input KeyCode.enter drawn w = (InputState.GameEnd, w) := by
  have hguard : ¬ (w.round ≤ 6 ∧ w.solved = false) := by
    intro hg
    rcases hg with ⟨hr, hs⟩
    unfold gameState at h
    rw [hs] at h
    simp only [Bool.false_eq_true, if_false] at h
    rcases h with h | h
    · split at h
      · exact GameState.noConfusion h
      · exact GameState.noConfusion h
    · split at h
      · rename_i hlt
        unfold ROUND at hlt
        omega
      · exact GameState.noConfusion h
  simp [handle_input, hguard]

/-- A finished (won) session. -/
def wWon : Wordle := { mkWordle [] [] with solved := true }

/-- Claim C4, counterexample: in a terminal session the `Enter` submission
produces `InputState.GameEnd` — not `Submit`, not any error value — and the
session (including its empty error message) is unchanged; no `GameOver` error
exists in the code. -/
theorem terminal_submit_no_error :
    gameState wWon = GameState.Won ∧
    handle_input KeyCode.enter [] wWon = (InputState.GameEnd, wWon) ∧
    (handle_input KeyCode.enter [] wWon).1 ≠ InputState.Submit ∧
    (handle_input KeyCode.enter [] wWon).2.err_msg = "" := by
  exact ⟨by decide, rfl, by decide, rfl⟩

/-- Witness for claim C4's amended statement at a concrete terminal session. -/
theorem terminal_submit_ignored_witness :
    gameState wWon = GameState.Won ∧
    handle_input KeyCode.enter [] wWon = (InputState.GameEnd, wWon) :=
  ⟨by decide, terminal_submit_ignored wWon [] (Or.inl (by decide))⟩

/-! ### Claim C7: restart -/

/-- Claim C7: `game_restart`, from any lifecycle state, resets the round to 1,
empties the history, resets every keyboard hint to `Unused`, clears the input
buffer, installs the freshly drawn answer (a member of the loaded word set),
and puts the session back into `Playing`. -/
theorem game_restart_resets (w : Wordle) (a : List Char) (h : a ∈ w.valid_words) :
    (game_restart w a).round = 1 ∧
    (game_restart w a).history = [] ∧
    (∀ c, (game_restart w a).used_chars c = TileState.Unused) ∧
    (game_restart w a).current = [] ∧
    (game_restart w a).answer ∈ (game_restart w a).valid_words ∧
    gameState (game_restart w a) = GameState.Playing :=
  ⟨rfl, rfl, fun _ => rfl, rfl, h, rfl⟩

/-- A scrambled mid/terminal-state session to restart from. -/
def wMessy : Wordle :=
  { mkWordle [crateW, houndW] crateW with
    round := 7, solved := true, history := [scoredA], current := abcChars }

/-- Witness for claim C7 at a concrete terminal session. -/
theorem game_restart_resets_witness :
    (game_restart wMessy houndW).round = 1 ∧
    (game_restart wMessy houndW).history = [] ∧
    (game_restart wMessy houndW).used_chars 'Q' = TileState.Unused ∧
    gameState (game_restart wMessy houndW) = GameState.Playing :=
  ⟨(game_restart_resets wMessy houndW (by decide)).1,
   (game_restart_resets wMessy houndW (by decide)).2.1,
   (game_restart_resets wMessy houndW (by decide)).2.2.1 'Q',
   (game_restart_resets wMessy houndW (by decide)).2.2.2.2.2⟩

/-! ### Byte-length lemmas for ASCII uppercasing -/

theorem char_ofNat_toNat_upper (n : Nat) (h1 : 65 ≤ n) (h2 : n ≤ 90) :
    (Char.ofNat n).toNat = n := by
  have hv : n.isValidChar := Or.inl (by omega)
  simp only [Char.ofNat, hv, dite_true, Char.ofNatAux, Char.toNat]
  simp [UInt32.toNat, UInt32.ofNat', Nat.mod_eq_of_lt (by omega : n < 4294967296)]

theorem charSize_toUpperAscii (c : Char) : charSize (toUpperAscii c) = charSize c := by
  unfold toUpperAscii
  split
  · rename_i h
    have ht : (Char.ofNat (c.toNat - 32)).toNat = c.toNat - 32 :=
      char_ofNat_toNat_upper _ (by omega) (by omega)
    unfold charSize
    rw [ht, if_pos (by omega : c.toNat - 32 < 128), if_pos (by omega : c.toNat < 128)]
  · rfl

theorem rustByteLen_asciiUpper (s : List Char) :
    rustByteLen (asciiUpper s) = rustByteLen s := by
  unfold rustByteLen asciiUpper
  rw [List.map_map]
  simp [Function.comp_def, charSize_toUpperAscii]

/-! ### Claim C10: `Word::from` totality on the validated path -/

/-- Claim C10: `Word::from` panics (modelled as `none`) exactly when its
input's byte length differs from 5; and `parse_input` — which checks ASCII
and trimmed byte length 5 before uppercasing and calling `Word::from` — can
never reach that panic, whatever the raw input. -/
theorem word_from_total (s : List Char) (w : Wordle) (input : List Char) :
    (Word.fromChars s = none ↔ rustByteLen s ≠ 5) ∧ parse_input w input ≠ none := by
  constructor
  · unfold Word.fromChars
    by_cases h : rustByteLen s ≠ 5
    · simp [h]
    · simp [h]
  · simp only [parse_input]
    split_ifs with h1 h2 h3
    · simp
    · simp
    · have hlen : rustByteLen (asciiUpper (rustTrim input)) = 5 := by
        rw [rustByteLen_asciiUpper]
        unfold WORD_LEN at h2
        omega
      simp [Word.fromChars, hlen]
    · simp

/-- A fresh session over the two-word list `{CRATE, HOUND}` with answer
`CRATE`. -/
def wParse : Wordle := mkWordle [crateW, houndW] crateW

/-- Witness for claim C10: a 3-byte word panics, a validated raw input never
does. -/
theorem word_from_total_witness :
    Word.fromChars abcChars = none ∧ parse_input wParse houseChars ≠ none :=
  ⟨(word_from_total abcChars wParse houseChars).1.mpr (by decide),
   (word_from_total abcChars wParse houseChars).2⟩

/-! ### Claim C6: validation order and error-path purity -/

/-- Claim C6: `parse_input` validates in this exact order — non-ASCII trimmed
input yields the `not ascii` error, then a trimmed byte length other than 5
yields the `incorrect word length` error, then a missing uppercased word
yields the `invalid word` error — and whenever the `Submit` arm of `run` gets
any validation error, the session's round, history, keyboard hints, answer
and lifecycle state are unchanged (only the error message is recorded). -/
theorem parse_input_validation_order (w : Wordle) (input : List Char) :
    (isAsciiL (rustTrim input) = false →
      parse_input w input = some (Except.error errNotAscii)) ∧
    (isAsciiL (rustTrim input) = true → rustByteLen (rustTrim input) ≠ WORD_LEN →
      parse_input w input = some (Except.error errWrongLength)) ∧
    (isAsciiL (rustTrim input) = true → rustByteLen (rustTrim input) = WORD_LEN →
      asciiUpper (rustTrim input) ∉ w.valid_words →
      parse_input w input = some (Except.error errNotInWordList)) ∧
    (∀ e, parse_input w w.current = some (Except.error e) →
      ∃ w2, submitStep w = some w2 ∧ w2.round = w.round ∧ w2.history = w.history ∧
        w2.used_chars = w.used_chars ∧ w2.answer = w.answer ∧
        gameState w2 = gameState w) := by
  refine ⟨?_, ?_, ?_, ?_⟩
  · intro h1
    simp [parse_input, h1]
  · intro h1 h2
    simp [parse_input, h1, h2]
  · intro h1 h2 h3
    simp [parse_input, h1, h2, h3]
  · intro e he
    refine ⟨{ w with err_msg := e }, ?_, rfl, rfl, rfl, rfl, rfl⟩
    unfold submitStep
    rw [he]

/-- Witness for claim C6: each validation error at a concrete input, and the
error path leaving the session state intact. -/
theorem parse_input_validation_order_witness :
    parse_input wParse badChars = some (Except.error errNotAscii) ∧
    parse_input wParse abcChars = some (Except.error errWrongLength) ∧
    parse_input wParse houseChars = some (Except.error errNotInWordList) ∧
    (submitStep { wParse with current := abcChars }).isSome = true := by
  refine ⟨?_, ?_, ?_, ?_⟩
  · exact (parse_input_validation_order wParse badChars).1 (by decide)
  · exact (parse_input_validation_order wParse abcChars).2.1 (by decide) (by decide)
  · exact (parse_input_validation_order wParse houseChars).2.2.1
      (by decide) (by decide) (by decide)
  · obtain ⟨w2, hw2, -, -, -, -, -⟩ :=
      (parse_input_validation_order { wParse with current := abcChars } []).2.2.2
        errWrongLength (by rfl)
    rw [hw2]
    rfl

/-! ### Claim C9: word-list loading and drawing -/

/-- Claim C9, counterexample: `load_words` keeps the uppercased line `AB`
even though its length is 2, and returns the empty set (with no error) on
empty input — the length filter and the `EmptyWordList` load failure do not
exist; emptiness only panics later in `draw_word`. -/
theorem load_words_no_length_filter :
    abUpper ∈ load_words [abLower] ∧
    abUpper.length ≠ 5 ∧ rustByteLen abUpper ≠ 5 ∧
    load_words [] = [] := by
  decide

/-- Claim C9 (amended): `load_words` ASCII-uppercases each raw line into the
set with no length filtering and no emptiness check; drawing the answer
panics (modelled as `none`) on an empty set and otherwise returns a member of
the set — so no answer (hence no session) is ever produced from an empty
list, but the guard lives in `draw_word`, not in loading. -/
theorem load_words_and_draw (lines words : List (List Char)) (k : Nat)
    (hw : words ≠ []) :
    (∀ wd ∈ load_words lines, ∃ l ∈ lines, wd = asciiUpper l) ∧
    draw_word [] k = none ∧
    (∃ wd, draw_word words k = some wd ∧ wd ∈ words) := by
  refine ⟨?_, rfl, ?_⟩
  · intro wd hwd
    unfold load_words at hwd
    obtain ⟨l, hl, heq⟩ := List.mem_map.mp hwd
    exact ⟨l, hl, heq.symm⟩
  · have hlen : 0 < words.length := List.length_pos.mpr hw
    have hk : k % words.length < words.length := Nat.mod_lt _ hlen
    have hne : ¬ (words.isEmpty = true) := by
      cases words
      · exact absurd rfl hw
      · simp
    unfold draw_word
    rw [if_neg hne]
    exact ⟨words.get ⟨k % words.length, hk⟩, List.get?_eq_get hk,
      List.get_mem words (k % words.length) hk⟩

/-- Witness for claim C9's amended statement at concrete inputs. -/
theorem load_words_and_draw_witness :
    draw_word [] 3 = none ∧ (draw_word [abUpper] 3).isSome = true := by
  refine ⟨(load_words_and_draw [abLower] [abUpper] 3 (by decide)).2.1, ?_⟩
  obtain ⟨wd, hwd, -⟩ := (load_words_and_draw [abLower] [abUpper] 3 (by decide)).2.2
  rw [hwd]
  rfl

/-! ### Claim C5: six valid non-winning submissions lose the game -/

/-- The scored word a successful submission of `input` produces: the
validated guess (trimmed, uppercased, `Absent` tiles) run through
`compare`. -/
def scoredOf (w : Wordle) (input : List Char) : Word :=
  ⟨compare w.answer ((asciiUpper (rustTrim input)).map fun c => ⟨c, TileState.Absent⟩)⟩

/-- Whether `parse_input` accepts the input. -/
def isValid (w : Wordle) (input : List Char) : Bool :=
  match parse_input w input with
  | some (Except.ok _) => true
  | _ => false

theorem parse_input_ok_shape (w : Wordle) (i : List Char) (g : Word)
    (h : parse_input w i = some (Except.ok g)) :
    g.letters = (asciiUpper (rustTrim i)).map fun c => ⟨c, TileState.Absent⟩ := by
  simp only [parse_input] at h
  split_ifs at h with h1 h2 h3
  · exact absurd h (by simp)
  · exact absurd h (by simp)
  · unfold Word.fromChars at h
    split_ifs at h with h4
    · exact absurd h (by simp)
    · simp only [Option.map_some', Option.some.injEq, Except.ok.injEq] at h
      rw [← h]
  · exact absurd h (by simp)

theorem submitStep_eq_of_ok (w : Wordle) (g : Word)
    (h : parse_input w w.current = some (Except.ok g)) :
    submitStep w = some
      { (update_status { w with err_msg := "" } ⟨compare w.answer g.letters⟩) with
        round := w.round + 1, current := [] } := by
  unfold submitStep
  rw [h]
  rfl

theorem submit_valid (w : Wordle) (i : List Char) (h : isValid w i = true) :
    ∃ w2, submitWord w i = some w2 ∧ w2.round = w.round + 1 ∧
      w2.solved = allCorrect (scoredOf w i) ∧ w2.answer = w.answer ∧
      w2.valid_words = w.valid_words := by
  unfold isValid at h
  cases hp : parse_input w i with
  | none => rw [hp] at h; simp at h
  | some r =>
    cases r with
    | error e => rw [hp] at h; simp at h
    | ok g =>
      have h2 : parse_input { w with current := i } ({ w with current := i }).current =
          some (Except.ok g) := hp
      have h3 := submitStep_eq_of_ok { w with current := i } g h2
      refine ⟨_, h3, rfl, ?_, rfl, rfl⟩
      show allCorrect ⟨compare w.answer g.letters⟩ = allCorrect (scoredOf w i)
      rw [parse_input_ok_shape w i g hp]
      rfl

theorem submit_valid_of_eq (w : Wordle) (i : List Char) (w2 : Wordle)
    (v : isValid w i = true) (h : submitWord w i = some w2) :
    w2.round = w.round + 1 ∧ w2.solved = allCorrect (scoredOf w i) ∧
    w2.answer = w.answer ∧ w2.valid_words = w.valid_words := by
  obtain ⟨u, hu, p1, p2, p3, p4⟩ := submit_valid w i v
  rw [h] at hu
  injection hu with he
  cases he
  exact ⟨p1, p2, p3, p4⟩

/-- Claim C5: from a fresh session (round 1, default maximum 6), six
consecutive valid submissions, none of whose scored words is all-`Correct`,
leave the session in lifecycle state `Lost`. -/
theorem six_wrong_guesses_lost
    (ws : List (List Char)) (a i1 i2 i3 i4 i5 i6 : List Char)
    (w1 w2 w3 w4 w5 w6 : Wordle)
    (v1 : isValid (mkWordle ws a) i1 = true)
    (h1 : submitWord (mkWordle ws a) i1 = some w1)
    (n1 : allCorrect (scoredOf (mkWordle ws a) i1) = false)
    (v2 : isValid w1 i2 = true)
    (h2 : submitWord w1 i2 = some w2)
    (n2 : allCorrect (scoredOf w1 i2) = false)
    (v3 : isValid w2 i3 = true)
    (h3 : submitWord w2 i3 = some w3)
    (n3 : allCorrect (scoredOf w2 i3) = false)
    (v4 : isValid w3 i4 = true)
    (h4 : submitWord w3 i4 = some w4)
    (n4 : allCorrect (scoredOf w3 i4) = false)
    (v5 : isValid w4 i5 = true)
    (h5 : submitWord w4 i5 = some w5)
    (n5 : allCorrect (scoredOf w4 i5) = false)
    (v6 : isValid w5 i6 = true)
    (h6 : submitWord w5 i6 = some w6)
    (n6 : allCorrect (scoredOf w5 i6) = false) :
    gameState w6 = GameState.Lost := by
  have f1 := submit_valid_of_eq _ _ _ v1 h1
  have f2 := submit_valid_of_eq _ _ _ v2 h2
  have f3 := submit_valid_of_eq _ _ _ v3 h3
  have f4 := submit_valid_of_eq _ _ _ v4 h4
  have f5 := submit_valid_of_eq _ _ _ v5 h5
  have f6 := submit_valid_of_eq _ _ _ v6 h6
  have hr : w6.round = 7 := by
    have r0 : (mkWordle ws a).round = 1 := rfl
    rw [f6.1, f5.1, f4.1, f3.1, f2.1, f1.1, r0]
  have hs : w6.solved = false := by
    rw [f6.2.1]
    exact n6
  unfold gameState
  rw [hs]
  simp only [Bool.false_eq_true, if_false]
  rw [if_pos]
  rw [hr]
  unfold ROUND
  omega

def c5w0 : Wordle := mkWordle [crateW, houndW] crateW

def c5w1 : Wordle := (submitWord c5w0 houndW).getD c5w0

def c5w2 : Wordle := (submitWord c5w1 houndW).getD c5w1

def c5w3 : Wordle := (submitWord c5w2 houndW).getD c5w2

def c5w4 : Wordle := (submitWord c5w3 houndW).getD c5w3

def c5w5 : Wordle := (submitWord c5w4 houndW).getD c5w4

def c5w6 : Wordle := (submitWord c5w5 houndW).getD c5w5

/-- Witness for claim C5: six `HOUND` guesses against answer `CRATE` end in
`Lost`. -/
theorem six_wrong_guesses_lost_witness : gameState c5w6 = GameState.Lost :=
  six_wrong_guesses_lost [crateW, houndW] crateW houndW houndW houndW houndW
    houndW houndW c5w1 c5w2 c5w3 c5w4 c5w5 c5w6
    rfl rfl rfl rfl rfl rfl rfl rfl rfl rfl rfl rfl rfl rfl rfl rfl rfl rfl

/-! ### Claims C1 and C3: the two-pass evaluator -/

/-- Number of tiles of letter `c` carrying state `s`. -/
def countLS (s : TileState) (c : Char) (ts : List Tile) : Nat :=
  ts.countP fun t => decide (t.letter = c ∧ t.state = s)

theorem zip_map_absent (G A : List Char) :
    (G.map fun c => (⟨c, TileState.Absent⟩ : Tile)).zip A =
      (G.zip A).map fun p => ((⟨p.1, TileState.Absent⟩ : Tile), p.2) := by
  induction G generalizing A with
  | nil => simp
  | cons g G ih =>
    cases A with
    | nil => simp
    | cons a A => simp [ih]

theorem zip_snd_eq (G A : List Char) (h : G.length = A.length) :
    (G.zip A).map Prod.snd = A :=
  List.map_snd_zip G A h.ge

theorem pass1_snd (ps : List (Char × Char)) :
    ∀ m, (pass1 m (ps.map fun p => ((⟨p.1, TileState.Absent⟩ : Tile), p.2))).2 =
      ps.map fun p =>
        if p.1 = p.2 then (⟨p.1, TileState.Correct⟩ : Tile)
        else ⟨p.1, TileState.Absent⟩ := by
  induction ps with
  | nil => intro m; rfl
  | cons p ps ih =>
    intro m
    by_cases h : p.1 = p.2
    · simp [pass1, h, ih]
    · simp [pass1, h, ih]

theorem pass1_fst_apply (ps : List (Char × Char)) :
    ∀ m c, (pass1 m (ps.map fun p => ((⟨p.1, TileState.Absent⟩ : Tile), p.2))).1 c =
      m c - (matchedLetters ps).count c := by
  induction ps with
  | nil => intro m c; simp [pass1, matchedLetters]
  | cons p ps ih =>
    intro m c
    by_cases h : p.1 = p.2
    · by_cases hc : c = p.1
      · subst hc
        simp [pass1, h, ih, matchedLetters, List.count_cons]
        omega
      · have hc2 : ¬ c = p.2 := h ▸ hc
        have hbc2 : ¬ p.2 = c := fun e => hc2 e.symm
        simp [pass1, h, ih, matchedLetters, List.count_cons, hc2, hbc2]
    · simp [pass1, h, ih, matchedLetters]

theorem pass1_fst (ps : List (Char × Char)) (m : Char → Nat) :
    (pass1 m (ps.map fun p => ((⟨p.1, TileState.Absent⟩ : Tile), p.2))).1 =
      fun c => m c - (matchedLetters ps).count c :=
  funext fun c => pass1_fst_apply ps m c

/-- `compare` on a `Word::from`-shaped guess, in closed form: pass 2 applied
to the pass-1 tile markings and the pass-1-depleted counts. -/
theorem scoreOf_eq (G A : List Char) :
    scoreOf A G =
      pass2 (fun d => A.count d - (matchedLetters (G.zip A)).count d)
        ((G.zip A).map fun p =>
          if p.1 = p.2 then (⟨p.1, TileState.Correct⟩ : Tile)
          else ⟨p.1, TileState.Absent⟩) := by
  simp only [scoreOf, compare]
  rw [zip_map_absent, pass1_snd, pass1_fst]

theorem pass2_states (ps : List (Char × Char)) :
    ∀ (m : Char → Nat) (rem : Multiset Char), (∀ c, m c = rem.count c) →
      (pass2 m (ps.map fun p =>
        if p.1 = p.2 then (⟨p.1, TileState.Correct⟩ : Tile)
        else ⟨p.1, TileState.Absent⟩)).map Tile.state =
      specPass2 (ps.map fun p => (p.1, decide (p.1 = p.2))) rem := by
  induction ps with
  | nil => intro m rem hinv; rfl
  | cons p ps ih =>
    intro m rem hinv
    by_cases h : p.1 = p.2
    · simp [pass2, specPass2, h, ih _ _ hinv]
    · have hm := hinv p.1
      by_cases hb : 0 < m p.1
      · have hbr : 0 < rem.count p.1 := hm ▸ hb
        have hinv2 : ∀ c, (if c = p.1 then m c - 1 else m c) = (rem.erase p.1).count c := by
          intro c
          by_cases hc : c = p.1
          · subst hc
            simp [Multiset.count_erase_self, hm]
          · simp [hc, Multiset.count_erase_of_ne hc, hinv c]
        simp [pass2, specPass2, h, hb, hbr, ih _ _ hinv2]
      · have hbr : ¬ 0 < rem.count p.1 := hm ▸ hb
        simp [pass2, specPass2, h, hb, hbr, ih _ _ hinv]

theorem pass2_count_correct (ts : List Tile) :
    ∀ (m : Char → Nat) (c : Char),
      countLS TileState.Correct c (pass2 m ts) = countLS TileState.Correct c ts := by
  induction ts with
  | nil => intro m c; rfl
  | cons t ts ih =>
    intro m c
    by_cases h : t.state = TileState.Correct
    · simp [pass2, h, countLS, List.countP_cons, ih]
      simp [countLS] at ih
      simp [ih, h]
    · by_cases hb : 0 < m t.letter
      · simp [pass2, h, hb, countLS, List.countP_cons]
        simp [countLS] at ih
        simp [ih, h]
      · simp [pass2, h, hb, countLS, List.countP_cons]
        simp [countLS] at ih
        simp [ih, h]

theorem pass2_count_present_le (ts : List Tile) :
    ∀ (m : Char → Nat) (c : Char),
      countLS TileState.Present c (pass2 m ts) ≤ m c := by
  induction ts with
  | nil => intro m c; simp [countLS, pass2]
  | cons t ts ih =>
    intro m c
    by_cases h : t.state = TileState.Correct
    · have := ih m c
      simp [pass2, h, countLS, List.countP_cons] at this ⊢
      simpa [h] using this
    · by_cases hb : 0 < m t.letter
      · have := ih (fun d => if d = t.letter then m d - 1 else m d) c
        by_cases hc : t.letter = c
        · subst hc
          simp [pass2, h, hb, countLS, List.countP_cons] at this ⊢
          omega
        · have hc2 : ¬ c = t.letter := fun e => hc e.symm
          simp [pass2, h, hb, hc, hc2, countLS, List.countP_cons] at this ⊢
          exact this
      · have := ih m c
        simp [pass2, h, hb, countLS, List.countP_cons] at this ⊢
        simpa using this

theorem countLS_correct_mapped (ps : List (Char × Char)) (c : Char) :
    countLS TileState.Correct c
      (ps.map fun p =>
        if p.1 = p.2 then (⟨p.1, TileState.Correct⟩ : Tile)
        else ⟨p.1, TileState.Absent⟩) = (matchedLetters ps).count c := by
  induction ps with
  | nil => rfl
  | cons p ps ih =>
    by_cases h : p.1 = p.2
    · simp [countLS, List.countP_cons, h, matchedLetters, List.count_cons] at ih ⊢
      rw [ih]
    · simp [countLS, List.countP_cons, h, matchedLetters] at ih ⊢
      exact ih

theorem matched_count_le (ps : List (Char × Char)) (c : Char) :
    (matchedLetters ps).count c ≤ (ps.map Prod.snd).count c := by
  induction ps with
  | nil => simp [matchedLetters]
  | cons p ps ih =>
    by_cases h : p.1 = p.2
    · simp [matchedLetters, h, List.count_cons] at ih ⊢
      exact ih
    · simp [matchedLetters, h, List.count_cons] at ih ⊢
      omega

/-- Claim C3: for length-5 answer and guess, and every letter `c`, the scored
guess carries at most `occurrences(c, answer)` tiles of letter `c` marked
`Correct` or `Present`. -/
theorem scored_counts_bounded (G A : List Char) (hG : G.length = 5)
    (hA : A.length = 5) (c : Char) :
    countLS TileState.Correct c (scoreOf A G) +
      countLS TileState.Present c (scoreOf A G) ≤ A.count c := by
  rw [scoreOf_eq, pass2_count_correct, countLS_correct_mapped]
  have hple := pass2_count_present_le
    ((G.zip A).map fun p =>
      if p.1 = p.2 then (⟨p.1, TileState.Correct⟩ : Tile)
      else ⟨p.1, TileState.Absent⟩)
    (fun d => A.count d - (matchedLetters (G.zip A)).count d) c
  have hmle : (matchedLetters (G.zip A)).count c ≤ A.count c := by
    have h1 := matched_count_le (G.zip A) c
    rw [zip_snd_eq G A (hG.trans hA.symm)] at h1
    exact h1
  omega

/-- Witness for claim C3 at the concrete answer `TRAIT`, guess `TXTTX`,
letter `T`. -/
theorem scored_counts_bounded_witness :
    countLS TileState.Correct 'T' (scoreOf traitW txttxW) +
      countLS TileState.Present 'T' (scoreOf traitW txttxW) ≤ traitW.count 'T' :=
  scored_counts_bounded txttxW traitW (by decide) (by decide) 'T'

theorem specRemaining_count (G A : List Char) (c : Char) :
    (specRemaining G A).count c = A.count c - (matchedLetters (G.zip A)).count c := by
  unfold specRemaining
  rw [Multiset.count_sub, Multiset.coe_count, Multiset.coe_count]

/-- Claim C1: on length-5 words, `compare` produces exactly the spec's
two-pass multiset scoring (pass 1 marks and claims all positional matches
before pass 2 hands out `Present` left to right while budget remains,
`Absent` otherwise); in particular answer `TRAIT` against guess `TXTTX`
scores `[Correct, Absent, Present, Absent, Absent]`. -/
theorem compare_matches_spec (G A : List Char) (hG : G.length = 5)
    (hA : A.length = 5) :
    ((scoreOf A G).map Tile.state = specEvaluate G A) ∧
    (scoreOf traitW txttxW).map Tile.state =
      [TileState.Correct, TileState.Absent, TileState.Present, TileState.Absent,
       TileState.Absent] := by
  constructor
  · rw [scoreOf_eq]
    unfold specEvaluate
    exact pass2_states (G.zip A) _ _ fun c => (specRemaining_count G A c).symm
  · decide

/-- Witness for claim C1 at the concrete answer `TRAIT` and guess `TXTTX`. -/
theorem compare_matches_spec_witness :
    (scoreOf traitW txttxW).map Tile.state = specEvaluate txttxW traitW :=
  (compare_matches_spec txttxW traitW (by decide) (by decide)).1

end RustWordle
